import Mathlib

set_option maxHeartbeats 1000000
set_option synthInstance.maxHeartbeats 400000

/-!
Shallow embedding of the template-matching core of `src/resources/templates/base.py`
(class `ResourceTemplate` with `validate_uri_template`, `parse_uri`,
`extract_parameters`, `validate_parameters`).

Strings are embedded as `List Char` (Python slicing and `len` act on code points,
as `List.drop` and `List.length` do here).  Python's `str.isalnum` is modelled by
ASCII `Char.isAlphanum`; every concrete input used below is ASCII, where the two
agree.  Python `dict` values are modelled as association lists whose insert
overwrites in place (preserving first-insertion order), exactly as CPython dicts
behave.  Exceptions are modelled by `Except` over a single error inductive whose
constructors are classified into the two exception classes of the source.
-/

abbrev Str := List Char

deriving instance DecidableEq for Except

/-- Characters of the fixed protocol scheme string `docs://` of the source. -/
def docsScheme : Str := ['d', 'o', 'c', 's', ':', '/', '/']

/-- Characters of the literal protocol value `docs` returned by `parse_uri`. -/
def protoDocs : Str := ['d', 'o', 'c', 's']

/-- Expected-type tags: the Python `type` objects used as values of
`parameter_types` (`str`, `int`, `bool`). -/
inductive PyType
  | str
  | int
  | bool
  deriving DecidableEq

/-- Runtime parameter values (`Any` in the source signature). -/
inductive PyValue
  | vstr (s : Str)
  | vint (n : Int)
  | vbool (b : Bool)
  deriving DecidableEq

/-- Python `isinstance(value, expected_type)` on the modelled values.  Note that
in Python `bool` is a subclass of `int`, so `isinstance(True, int)` is `True`. -/
def isinstance : PyValue → PyType → Bool
  | .vstr _, .str => true
  | .vint _, .int => true
  | .vbool _, .bool => true
  | .vbool _, .int => true
  | _, _ => false

/-- Modelled from the spec words of C4 only: the exact runtime type of a value
(`type(value)`), used to state the claim's notion of an exact type-check.  The
source itself uses `isinstance`, not this. -/
def specRuntimeType : PyValue → PyType
  | .vstr _ => .str
  | .vint _ => .int
  | .vbool _ => .bool

/-- One clause of the `ParameterExtractionError` message built by
`extract_parameters` (`Missing parameters: ...` or `Extra parameters: ...`). -/
inductive MismatchClause
  | missing (names : List Str)
  | extra (names : List Str)
  deriving DecidableEq

/-- The error taxonomy of the source (base `ResourceError`), one constructor per
`raise` site, carrying the data interpolated into the message. -/
inductive ResourceError
  | uriProtocolStart
  | uriEmptyPath
  | uriInvalidProtocol
  | uriSegmentMismatch (expected actual : Nat)
  | uriInvalidParamName (name : Str)
  | extractionMismatch (clauses : List MismatchClause)
  | extractionType (name : Str) (expected : PyType)
  deriving DecidableEq

/-- Whether an error is of class `URIValidationError` in the source. -/
def ResourceError.isURIValidationError : ResourceError → Bool
  | .uriProtocolStart => true
  | .uriEmptyPath => true
  | .uriInvalidProtocol => true
  | .uriSegmentMismatch _ _ => true
  | .uriInvalidParamName _ => true
  | _ => false

/-- Whether an error is of class `ParameterExtractionError` in the source. -/
def ResourceError.isParameterExtractionError : ResourceError → Bool
  | .extractionMismatch _ => true
  | .extractionType _ _ => true
  | _ => false

/-- The `ResourceState` enum of the source. -/
inductive ResourceState
  | created
  | active
  | invalid
  | cleanup
  deriving DecidableEq

/-- The `ResourceTemplate` pydantic model (its three fields). -/
structure ResourceTemplate where
  uri_template : Str
  state : ResourceState
  parameter_types : List (Str × PyType)
  deriving DecidableEq

/-- The `URIComponents` dataclass of the source. -/
structure URIComponents where
  protocol : Str
  path : Str
  parameters : List (Str × Str)
  deriving DecidableEq

/-- The `validate_uri_template` field validator: the template must start with
`docs://` and have more than the 7 scheme characters. -/
def validate_uri_template (v : Str) : Except ResourceError Str :=
  if ¬ docsScheme.isPrefixOf v then .error .uriProtocolStart
  else if v.length ≤ 7 then .error .uriEmptyPath
  else .ok v

/-- Construction of a `ResourceTemplate(uri_template=..., parameter_types=...)`:
pydantic runs the field validator and, on success, produces the model with
`state` defaulted to `CREATED`.  A validator failure propagates and no model
value exists. -/
def mkResourceTemplate (uri : Str) (ptypes : List (Str × PyType)) :
    Except ResourceError ResourceTemplate :=
  match validate_uri_template uri with
  | .ok v => .ok ⟨v, .created, ptypes⟩
  | .error e => .error e

/-- Python `path.split('/')`: the list of (possibly empty) chunks between `/`
characters. -/
def splitSlash : Str → List Str
  | [] => [[]]
  | c :: cs =>
    match splitSlash cs with
    | [] => [[]]
    | s :: rest => if c = '/' then [] :: s :: rest else (c :: s) :: rest

/-- The source's `[s for s in path.split('/') if s]`: split on `/` and drop
empty segments. -/
def segs (s : Str) : List Str :=
  (splitSlash s).filter (fun x => !x.isEmpty)

/-- Holds of a character the regex class `[^\x7d]` accepts. -/
def notRB (d : Char) : Bool := decide (d ≠ '}')

/-- Python `re.match(r'\x7b([^\x7d]+)\x7d', seg)` followed by `.group(1)`:
`re.match` anchors at the start of the segment only, so this succeeds whenever
the segment BEGINS with an opening brace, one or more non-closing-brace
characters, and a closing brace; trailing characters are ignored.  Returns the
captured group.  The character class `[^}]` is the predicate `notRB`. -/
def matchParam : Str → Option Str
  | [] => none
  | c :: rest =>
    if c = '{' then
      let name := rest.takeWhile notRB
      let rem := rest.dropWhile notRB
      if name = [] then none
      else if rem = [] then none
      else some name
    else none

/-- Python `str.isalnum()`: nonempty and every character alphanumeric. -/
def isAlnum (s : Str) : Bool :=
  !s.isEmpty && s.all Char.isAlphanum

/-- CPython dict assignment `d[k] = v`: overwrite in place if the key exists
(keeping its original position), else append. -/
def dictInsert (k : Str) (v : Str) : List (Str × Str) → List (Str × Str)
  | [] => [(k, v)]
  | (k', v') :: d => if k' = k then (k', v) :: d else (k', v') :: dictInsert k v d

/-- Python `d.get(k)` on an association list. -/
def dictGet {β : Type} (k : Str) : List (Str × β) → Option β
  | [] => none
  | (k', v) :: d => if k' = k then some v else dictGet k d

/-- The parameter-collection loop of `parse_uri` over
`zip(template_segments, uri_segments)`, accumulating the `parameters` dict;
raises `URIValidationError` on a non-alphanumeric captured name. -/
def collectParams :
    List (Str × Str) → List (Str × Str) → Except ResourceError (List (Str × Str))
  | [], acc => .ok acc
  | (ts, us) :: rest, acc =>
    match matchParam ts with
    | some name =>
      if isAlnum name then collectParams rest (dictInsert name us acc)
      else .error (.uriInvalidParamName name)
    | none => collectParams rest acc

/-- The same loop restricted to the success path (no alnum failure). -/
def collectOk : List (Str × Str) → List (Str × Str) → List (Str × Str)
  | [], acc => acc
  | (ts, us) :: rest, acc =>
    match matchParam ts with
    | some name => collectOk rest (dictInsert name us acc)
    | none => collectOk rest acc

/-- The `parse_uri` method of the source. -/
def parse_uri (t : ResourceTemplate) (uri : Str) : Except ResourceError URIComponents :=
  if ¬ docsScheme.isPrefixOf uri then .error .uriInvalidProtocol
  else
    let path := uri.drop 7
    let template_path := t.uri_template.drop 7
    let template_segments := segs template_path
    let uri_segments := segs path
    if template_segments.length ≠ uri_segments.length then
      .error (.uriSegmentMismatch template_segments.length uri_segments.length)
    else
      match collectParams (template_segments.zip uri_segments) [] with
      | .ok params => .ok ⟨protoDocs, path, params⟩
      | .error e => .error e

/-- Python `set(a) == set(b)` for key lists: mutual membership. -/
def sameSet (a b : List Str) : Bool :=
  a.all (fun k => decide (k ∈ b)) && b.all (fun k => decide (k ∈ a))

/-- The keys declared in `parameter_types` (`set(self.parameter_types.keys())`
before taking the set). -/
def declaredKeys (t : ResourceTemplate) : List Str :=
  t.parameter_types.map Prod.fst

/-- The keys found by parsing (`set(parameters.keys())` before taking the set). -/
def foundKeys (c : URIComponents) : List Str :=
  c.parameters.map Prod.fst

/-- The set difference `template_params - uri_params` of `extract_parameters`. -/
def missingKeys (t : ResourceTemplate) (c : URIComponents) : List Str :=
  (declaredKeys t).filter (fun k => decide (k ∉ foundKeys c))

/-- The set difference `uri_params - template_params` of `extract_parameters`. -/
def extraKeys (t : ResourceTemplate) (c : URIComponents) : List Str :=
  (foundKeys c).filter (fun k => decide (k ∉ declaredKeys t))

/-- The `error_msg` list built by `extract_parameters`: the missing clause when
`missing` is nonempty, followed by the extra clause when `extra` is nonempty,
joined into one message. -/
def mkClauses (missing extra : List Str) : List MismatchClause :=
  (if missing.isEmpty then [] else [.missing missing]) ++
    (if extra.isEmpty then [] else [.extra extra])

/-- The `extract_parameters` method of the source. -/
def extract_parameters (t : ResourceTemplate) (uri : Str) :
    Except ResourceError (List (Str × Str)) :=
  match parse_uri t uri with
  | .error e => .error e
  | .ok comps =>
    if sameSet (declaredKeys t) (foundKeys comps) then .ok comps.parameters
    else .error (.extractionMismatch (mkClauses (missingKeys t comps) (extraKeys t comps)))

/-- The `validate_parameters` method of the source: iterate the supplied pairs
in order; a declared expected type that the value fails `isinstance` against
raises immediately; undeclared names are skipped. -/
def validate_parameters (t : ResourceTemplate) :
    List (Str × PyValue) → Except ResourceError Unit
  | [] => .ok ()
  | (name, value) :: rest =>
    match dictGet name t.parameter_types with
    | some ty =>
      if isinstance value ty then validate_parameters t rest
      else .error (.extractionType name ty)
    | none => validate_parameters t rest

/-- The `parse_uri` method viewed as a state transformer on the receiver: the
method body contains no assignment to `self`, so the receiver after the call is
the receiver before it. -/
def parse_uri_method (t : ResourceTemplate) (uri : Str) :
    Except ResourceError (URIComponents × ResourceTemplate) :=
  match parse_uri t uri with
  | .ok c => .ok (c, t)
  | .error e => .error e

/-- The `extract_parameters` method as a state transformer on the receiver (its
body contains no assignment to `self`). -/
def extract_parameters_method (t : ResourceTemplate) (uri : Str) :
    Except ResourceError (List (Str × Str) × ResourceTemplate) :=
  match extract_parameters t uri with
  | .ok ps => .ok (ps, t)
  | .error e => .error e

/-- The `validate_parameters` method as a state transformer on the receiver (its
body contains no assignment to `self`). -/
def validate_parameters_method (t : ResourceTemplate) (ps : List (Str × PyValue)) :
    Except ResourceError (Unit × ResourceTemplate) :=
  match validate_parameters t ps with
  | .ok r => .ok (r, t)
  | .error e => .error e

/-- Modelled from the spec words of C1 only: a segment is a placeholder when the
ENTIRE segment is an opening brace, a nonempty brace-free name, and a closing
brace.  The source instead prefix-matches (see `matchParam`). -/
def specWholePlaceholder : Str → Option Str
  | [] => none
  | c :: rest =>
    if c = '{' ∧ rest.getLast? = some '}' ∧ rest.dropLast ≠ [] ∧
        (∀ d ∈ rest.dropLast, d ≠ '}') then
      some rest.dropLast
    else none

/-- Option analogue of `List.all`, used to state that a captured placeholder
name, if any, is alphanumeric. -/
def optAll (p : α → Bool) : Option α → Bool
  | none => true
  | some a => p a

/-- Left-biased choice on options. -/
def optOr {α : Type} : Option α → Option α → Option α
  | some a, _ => some a
  | none, b => b

/-- The candidate-segment values recorded for a given placeholder name, in
template order. -/
def placeholderVals (name : Str) : List (Str × Str) → List Str
  | [] => []
  | pr :: rest =>
    if matchParam pr.1 = some name then pr.2 :: placeholderVals name rest
    else placeholderVals name rest

lemma splitSlash_ne_nil (s : Str) : splitSlash s ≠ [] := by
  induction s with
  | nil => simp [splitSlash]
  | cons c cs ih =>
    cases h : splitSlash cs with
    | nil => exact absurd h ih
    | cons a l =>
      simp only [splitSlash, h]
      split <;> simp

lemma splitSlash_append (a b : Str) :
    splitSlash (a ++ '/' :: b) = splitSlash a ++ splitSlash b := by
  induction a with
  | nil =>
    cases hb : splitSlash b with
    | nil => exact absurd hb (splitSlash_ne_nil b)
    | cons s rest => simp [splitSlash, hb]
  | cons c a ih =>
    cases ha : splitSlash a with
    | nil => exact absurd ha (splitSlash_ne_nil a)
    | cons s rest =>
      by_cases hc : c = '/'
      · subst hc
        simp [splitSlash, ih, ha]
      · simp [splitSlash, ih, ha, hc]

lemma splitSlash_no_slash (s : Str) (h : ∀ c ∈ s, c ≠ '/') : splitSlash s = [s] := by
  induction s with
  | nil => rfl
  | cons c cs ih =>
    have hc : c ≠ '/' := h c (List.mem_cons_self c cs)
    have ih' := ih (fun d hd => h d (List.mem_cons_of_mem c hd))
    simp [splitSlash, ih', hc]

lemma segs_append (a b : Str) : segs (a ++ '/' :: b) = segs a ++ segs b := by
  simp [segs, splitSlash_append]

lemma segs_single (s : Str) (h0 : s ≠ []) (h : ∀ c ∈ s, c ≠ '/') : segs s = [s] := by
  simp [segs, splitSlash_no_slash s h, h0]

lemma segs_slash_cons (s : Str) : segs ('/' :: s) = segs s := by
  cases h : splitSlash s with
  | nil => exact absurd h (splitSlash_ne_nil s)
  | cons a l => simp [segs, splitSlash, h]

lemma segs_trailing_slash (s : Str) : segs (s ++ ['/']) = segs s := by
  have h := splitSlash_append s []
  simp [segs, h, splitSlash]

lemma segs_double_slash (a b : Str) :
    segs (a ++ '/' :: '/' :: b) = segs (a ++ '/' :: b) := by
  have h1 : a ++ '/' :: '/' :: b = a ++ '/' :: ('/' :: b) := rfl
  rw [h1, segs_append, segs_slash_cons, ← segs_append]

lemma nil_not_mem_segs (s : Str) : [] ∉ segs s := by
  intro h
  simp [segs, List.mem_filter] at h

lemma dictGet_insert_self (k : Str) (v : Str) (d : List (Str × Str)) :
    dictGet k (dictInsert k v d) = some v := by
  induction d with
  | nil => simp [dictInsert, dictGet]
  | cons p d ih =>
    obtain ⟨k0, v0⟩ := p
    by_cases h : k0 = k
    · subst h
      simp [dictInsert, dictGet]
    · simp [dictInsert, dictGet, h, ih]

lemma dictGet_insert_ne (k q : Str) (v : Str) (d : List (Str × Str)) (h : q ≠ k) :
    dictGet q (dictInsert k v d) = dictGet q d := by
  have hkq : ¬ (k = q) := fun hh => h hh.symm
  induction d with
  | nil => simp [dictInsert, dictGet, hkq]
  | cons p d ih =>
    obtain ⟨k0, v0⟩ := p
    by_cases h0 : k0 = k
    · subst h0
      simp [dictInsert, dictGet, hkq]
    · by_cases h1 : k0 = q
      · subst h1
        simp [dictInsert, dictGet, h0]
      · simp [dictInsert, dictGet, h0, h1, ih]

lemma dictGet_eq_none (k : Str) (d : List (Str × Str)) :
    dictGet k d = none ↔ k ∉ d.map Prod.fst := by
  induction d with
  | nil => simp [dictGet]
  | cons p d ih =>
    obtain ⟨k0, v0⟩ := p
    by_cases h : k0 = k
    · subst h
      simp [dictGet]
    · rw [show dictGet k ((k0, v0) :: d) = dictGet k d from by simp [dictGet, h]]
      simp only [List.map_cons, List.mem_cons, not_or]
      constructor
      · intro hn
        exact ⟨fun hh => h hh.symm, ih.mp hn⟩
      · intro hn
        exact ih.mpr hn.2

lemma dictGet_some_iff (k : Str) (d : List (Str × Str)) :
    (∃ v, dictGet k d = some v) ↔ k ∈ d.map Prod.fst := by
  cases h : dictGet k d with
  | none =>
    have hk := (dictGet_eq_none k d).mp h
    simp [h, hk]
  | some v =>
    have hk : k ∈ d.map Prod.fst := by
      by_contra hc
      rw [(dictGet_eq_none k d).mpr hc] at h
      cases h
    simp [h, hk]

lemma mem_keys_insert (x k : Str) (v : Str) (d : List (Str × Str)) :
    x ∈ (dictInsert k v d).map Prod.fst ↔ x = k ∨ x ∈ d.map Prod.fst := by
  induction d with
  | nil => simp [dictInsert]
  | cons p d ih =>
    obtain ⟨k0, v0⟩ := p
    by_cases h : k0 = k
    · subst h
      simp [dictInsert]
    · simp only [dictInsert, if_neg h, List.map_cons, List.mem_cons, ih]
      tauto

lemma keys_insert_nodup (k : Str) (v : Str) (d : List (Str × Str))
    (h : (d.map Prod.fst).Nodup) : ((dictInsert k v d).map Prod.fst).Nodup := by
  induction d with
  | nil => simp [dictInsert]
  | cons p d ih =>
    obtain ⟨k0, v0⟩ := p
    simp only [List.map_cons, List.nodup_cons] at h
    by_cases hk : k0 = k
    · subst hk
      simpa [dictInsert] using h
    · simp only [dictInsert, hk, if_false, List.map_cons, List.nodup_cons]
      refine ⟨?_, ih h.2⟩
      intro hmem
      rcases (mem_keys_insert k0 k v d).mp hmem with h1 | h2
      · exact hk h1
      · exact h.1 h2

lemma dictInsert_fresh (k : Str) (v : Str) (d : List (Str × Str))
    (h : k ∉ d.map Prod.fst) : dictInsert k v d = d ++ [(k, v)] := by
  induction d with
  | nil => rfl
  | cons p d ih =>
    obtain ⟨k0, v0⟩ := p
    simp only [List.map_cons, List.mem_cons, not_or] at h
    have hne : ¬ (k0 = k) := fun hh => h.1 hh.symm
    simp [dictInsert, hne, ih h.2]

lemma collect_ok_of_all (l : List (Str × Str)) (acc : List (Str × Str))
    (h : ∀ pr ∈ l, optAll isAlnum (matchParam pr.1) = true) :
    collectParams l acc = .ok (collectOk l acc) := by
  induction l generalizing acc with
  | nil => rfl
  | cons pr rest ih =>
    obtain ⟨ts, us⟩ := pr
    have hh := h (ts, us) (List.mem_cons_self _ _)
    have ht : ∀ pr ∈ rest, optAll isAlnum (matchParam pr.1) = true :=
      fun q hq => h q (List.mem_cons_of_mem _ hq)
    cases hm : matchParam ts with
    | none => simp [collectParams, collectOk, hm, ih _ ht]
    | some name =>
      rw [hm] at hh
      simp only [optAll] at hh
      simp [collectParams, collectOk, hm, hh, ih _ ht]

lemma collect_error_shape (l : List (Str × Str)) :
    ∀ (acc : List (Str × Str)) (e : ResourceError),
      collectParams l acc = .error e → ∃ n, e = .uriInvalidParamName n := by
  induction l with
  | nil => intro acc e h; simp [collectParams] at h
  | cons pr rest ih =>
    intro acc e h
    obtain ⟨ts, us⟩ := pr
    cases hm : matchParam ts with
    | none =>
      simp only [collectParams, hm] at h
      exact ih _ _ h
    | some name =>
      cases ha : isAlnum name with
      | true =>
        simp only [collectParams, hm, ha, if_true] at h
        exact ih _ _ h
      | false =>
        simp only [collectParams, hm, ha] at h
        simp at h
        exact ⟨name, h.symm⟩

lemma getLast?_cons_optOr (a : α) (l : List α) :
    (a :: l).getLast? = optOr l.getLast? (some a) := by
  induction l generalizing a with
  | nil => rfl
  | cons b m ih =>
    rw [List.getLast?_cons_cons, ih b]
    cases hm : m.getLast? with
    | none => simp [optOr]
    | some x => simp [optOr]

lemma getLast?_none_iff (l : List α) : l.getLast? = none ↔ l = [] :=
  List.getLast?_eq_none_iff

lemma placeholderVals_nil_iff (name : Str) (l : List (Str × Str)) :
    placeholderVals name l = [] ↔ ∀ pr ∈ l, matchParam pr.1 ≠ some name := by
  induction l with
  | nil => simp [placeholderVals]
  | cons pr rest ih =>
    by_cases h : matchParam pr.1 = some name
    · simp [placeholderVals, h]
    · simp [placeholderVals, h, ih]

lemma dictGet_collectOk (n : Str) (l : List (Str × Str)) :
    ∀ acc : List (Str × Str),
      dictGet n (collectOk l acc) =
        optOr (placeholderVals n l).getLast? (dictGet n acc) := by
  induction l with
  | nil =>
    intro acc
    cases h : dictGet n acc <;> simp [collectOk, placeholderVals, optOr, h]
  | cons pr rest ih =>
    intro acc
    obtain ⟨ts, us⟩ := pr
    cases hm : matchParam ts with
    | none =>
      have hne : ¬ (matchParam ts = some n) := by simp [hm]
      simp only [collectOk, hm]
      rw [ih acc]
      simp [placeholderVals, hne]
    | some m =>
      by_cases hmn : m = n
      · subst hmn
        simp only [collectOk, hm]
        rw [ih (dictInsert m us acc), dictGet_insert_self]
        have hpv : placeholderVals m ((ts, us) :: rest) = us :: placeholderVals m rest := by
          simp [placeholderVals, hm]
        rw [hpv, getLast?_cons_optOr]
        cases hx : (placeholderVals m rest).getLast? <;> simp [optOr]
      · have hne : ¬ (matchParam ts = some n) := by simp [hm, hmn]
        simp only [collectOk, hm]
        rw [ih (dictInsert m us acc), dictGet_insert_ne m n us acc (fun hh => hmn hh.symm)]
        simp [placeholderVals, hne]

lemma collectOk_keys_nodup (l : List (Str × Str)) :
    ∀ acc : List (Str × Str), (acc.map Prod.fst).Nodup →
      ((collectOk l acc).map Prod.fst).Nodup := by
  induction l with
  | nil => intro acc h; simpa [collectOk] using h
  | cons pr rest ih =>
    intro acc h
    obtain ⟨ts, us⟩ := pr
    cases hm : matchParam ts with
    | none => simpa [collectOk, hm] using ih acc h
    | some m => simpa [collectOk, hm] using ih _ (keys_insert_nodup m us acc h)

lemma drop7_scheme_append (s : Str) : (docsScheme ++ s).drop 7 = s := rfl

lemma isPrefixOf_append_self (p s : Str) : p.isPrefixOf (p ++ s) = true := by
  induction p with
  | nil => simp [List.isPrefixOf]
  | cons a q ih => simp [List.isPrefixOf, ih]

lemma scheme_isPrefixOf_append (s : Str) :
    docsScheme.isPrefixOf (docsScheme ++ s) = true :=
  isPrefixOf_append_self docsScheme s

lemma length_scheme_append (s : Str) : (docsScheme ++ s).length = 7 + s.length := by
  rw [List.length_append]
  rfl

lemma parse_uri_ok_of (t : ResourceTemplate) (uri : Str)
    (h1 : docsScheme.isPrefixOf uri = true)
    (h2 : (segs (t.uri_template.drop 7)).length = (segs (uri.drop 7)).length)
    (h3 : ∀ pr ∈ (segs (t.uri_template.drop 7)).zip (segs (uri.drop 7)),
      optAll isAlnum (matchParam pr.1) = true) :
    parse_uri t uri = .ok ⟨protoDocs, uri.drop 7,
      collectOk ((segs (t.uri_template.drop 7)).zip (segs (uri.drop 7))) []⟩ := by
  have hc := collect_ok_of_all _ [] h3
  simp [parse_uri, h1, h2, hc]

lemma alnum_char_ne_slash {c : Char} (h : c.isAlphanum = true) : c ≠ '/' := by
  rintro rfl
  exact absurd h (by decide)

lemma alnum_char_ne_rbrace {c : Char} (h : c.isAlphanum = true) : c ≠ '}' := by
  rintro rfl
  exact absurd h (by decide)

lemma isAlnum_spec {s : Str} (h : isAlnum s = true) :
    s ≠ [] ∧ ∀ c ∈ s, c ≠ '/' ∧ c ≠ '}' := by
  unfold isAlnum at h
  rw [Bool.and_eq_true, List.all_eq_true] at h
  obtain ⟨h1, h2⟩ := h
  refine ⟨?_, fun c hc => ⟨alnum_char_ne_slash (h2 c hc), alnum_char_ne_rbrace (h2 c hc)⟩⟩
  intro hs
  subst hs
  simp at h1

lemma takeWhile_closed (k : Str) (h : ∀ c ∈ k, c ≠ '}') :
    (k ++ ['}']).takeWhile notRB = k ∧ (k ++ ['}']).dropWhile notRB = ['}'] := by
  induction k with
  | nil =>
    constructor <;> simp [List.takeWhile, List.dropWhile, notRB]
  | cons c cs ih =>
    have hc : c ≠ '}' := h c (List.mem_cons_self _ _)
    have ih' := ih (fun d hd => h d (List.mem_cons_of_mem _ hd))
    have hcb : notRB c = true := by simp [notRB, hc]
    constructor
    · rw [List.cons_append, List.takeWhile_cons, hcb]
      simp [ih'.1]
    · rw [List.cons_append, List.dropWhile_cons, hcb]
      simp [ih'.2]

/-- A template segment of the exact shape used by the round-trip property:
an opening brace, the name, a closing brace. -/
def wrapB (k : Str) : Str := '{' :: (k ++ ['}'])

lemma matchParam_wrapB (k : Str) (h0 : k ≠ []) (h : ∀ c ∈ k, c ≠ '}') :
    matchParam (wrapB k) = some k := by
  have ht := takeWhile_closed k h
  show matchParam ('{' :: (k ++ ['}'])) = some k
  simp only [matchParam, ht.1, ht.2]
  simp [h0]

lemma wrapB_ne_nil (k : Str) : wrapB k ≠ [] := by simp [wrapB]

lemma wrapB_no_slash (k : Str) (h : ∀ c ∈ k, c ≠ '/') : ∀ c ∈ wrapB k, c ≠ '/' := by
  intro c hc
  simp [wrapB] at hc
  rcases hc with rfl | hc | rfl
  · decide
  · exact h c hc
  · decide

/-- The candidate/template tail built by joining pieces with a leading slash
before each, matching the test's `"/" + "/".join(parts)` construction. -/
def joinSlash : List Str → Str
  | [] => []
  | p :: ps => '/' :: (p ++ joinSlash ps)

lemma segs_joinSlash :
    ∀ ps : List Str, (∀ p ∈ ps, p ≠ [] ∧ ∀ c ∈ p, c ≠ '/') →
      ∀ base : Str, segs (base ++ joinSlash ps) = segs base ++ ps := by
  intro ps
  induction ps with
  | nil =>
    intro _ base
    simp [joinSlash]
  | cons p ps ih =>
    intro h base
    have hp := h p (List.mem_cons_self _ _)
    have hps := fun q hq => h q (List.mem_cons_of_mem _ hq)
    have hform : base ++ joinSlash (p :: ps) = base ++ '/' :: (p ++ joinSlash ps) := rfl
    rw [hform, segs_append, ih hps p, segs_single p hp.1 hp.2]
    simp

lemma collectParams_fresh :
    ∀ (ks vs : List Str) (acc : List (Str × Str)),
      ks.length = vs.length →
      (∀ k ∈ ks, isAlnum k = true) →
      ks.Nodup →
      (∀ k ∈ ks, k ∉ acc.map Prod.fst) →
      collectParams ((ks.map wrapB).zip vs) acc = .ok (acc ++ ks.zip vs) := by
  intro ks
  induction ks with
  | nil =>
    intro vs acc _ _ _ _
    simp [collectParams]
  | cons k ks ih =>
    intro vs acc hlen halnum hnd hfresh
    cases vs with
    | nil => simp at hlen
    | cons v vs =>
      have hk := halnum k (List.mem_cons_self _ _)
      have hspec := isAlnum_spec hk
      have hmp : matchParam (wrapB k) = some k :=
        matchParam_wrapB k hspec.1 (fun c hc => (hspec.2 c hc).2)
      have hfreshk : k ∉ acc.map Prod.fst := hfresh k (List.mem_cons_self _ _)
      have hins : dictInsert k v acc = acc ++ [(k, v)] := dictInsert_fresh k v acc hfreshk
      have hnd' : ks.Nodup := (List.nodup_cons.mp hnd).2
      have hknot : k ∉ ks := (List.nodup_cons.mp hnd).1
      have hfresh' : ∀ q ∈ ks, q ∉ (acc ++ [(k, v)]).map Prod.fst := by
        intro q hq
        simp only [List.map_append, List.map_cons, List.map_nil, List.mem_append,
          List.mem_singleton, not_or]
        exact ⟨hfresh q (List.mem_cons_of_mem _ hq), fun hh => hknot (hh ▸ hq)⟩
      have hlen' : ks.length = vs.length := by simpa using hlen
      have hrec := ih vs (acc ++ [(k, v)])
        hlen' (fun q hq => halnum q (List.mem_cons_of_mem _ hq)) hnd' hfresh'
      have hzip : ((k :: ks).map wrapB).zip (v :: vs) =
          (wrapB k, v) :: (ks.map wrapB).zip vs := rfl
      rw [hzip]
      rw [show collectParams ((wrapB k, v) :: (ks.map wrapB).zip vs) acc =
          collectParams ((ks.map wrapB).zip vs) (dictInsert k v acc) from by
        simp [collectParams, hmp, hk]]
      rw [hins, hrec]
      simp

lemma sameSet_self (a : List Str) : sameSet a a = true := by
  simp [sameSet, List.all_eq_true]

lemma sameSet_iff (a b : List Str) :
    sameSet a b = true ↔ ∀ x, x ∈ a ↔ x ∈ b := by
  simp only [sameSet, Bool.and_eq_true, List.all_eq_true, decide_eq_true_eq]
  constructor
  · rintro ⟨h1, h2⟩ x
    exact ⟨fun hx => h1 x hx, fun hx => h2 x hx⟩
  · intro h
    exact ⟨fun x hx => (h x).mp hx, fun x hx => (h x).mpr hx⟩

lemma validate_ok_iff (t : ResourceTemplate) (ps : List (Str × PyValue)) :
    validate_parameters t ps = .ok () ↔
      ∀ pr ∈ ps, ∀ ty, dictGet pr.1 t.parameter_types = some ty →
        isinstance pr.2 ty = true := by
  induction ps with
  | nil => simp [validate_parameters]
  | cons pr rest ih =>
    obtain ⟨n, v⟩ := pr
    cases hg : dictGet n t.parameter_types with
    | none => simp [validate_parameters, hg, ih]
    | some ty =>
      cases hi : isinstance v ty with
      | true => simp [validate_parameters, hg, hi, ih]
      | false =>
        constructor
        · intro h
          simp [validate_parameters, hg, hi] at h
        · intro h
          have hh := h (n, v) (List.mem_cons_self _ _) ty hg
          simp [hi] at hh

lemma validate_error_shape (t : ResourceTemplate) :
    ∀ (ps : List (Str × PyValue)) (e : ResourceError),
      validate_parameters t ps = .error e →
      ∃ n ty v, (n, v) ∈ ps ∧ dictGet n t.parameter_types = some ty ∧
        isinstance v ty = false ∧ e = .extractionType n ty := by
  intro ps
  induction ps with
  | nil =>
    intro e h
    simp [validate_parameters] at h
  | cons pr rest ih =>
    intro e h
    obtain ⟨n, v⟩ := pr
    cases hg : dictGet n t.parameter_types with
    | none =>
      simp only [validate_parameters, hg] at h
      obtain ⟨n', ty', v', hmem, hgg, hii, hee⟩ := ih e h
      exact ⟨n', ty', v', List.mem_cons_of_mem _ hmem, hgg, hii, hee⟩
    | some ty =>
      cases hi : isinstance v ty with
      | true =>
        simp only [validate_parameters, hg, hi, if_true] at h
        obtain ⟨n', ty', v', hmem, hgg, hii, hee⟩ := ih e h
        exact ⟨n', ty', v', List.mem_cons_of_mem _ hmem, hgg, hii, hee⟩
      | false =>
        simp only [validate_parameters, hg, hi] at h
        simp at h
        exact ⟨n, ty, v, List.mem_cons_self _ _, hg, hi, h.symm⟩

lemma dictGet_map_str (ks : List Str) (k : Str) (ty : PyType)
    (h : dictGet k (ks.map (fun x => (x, PyType.str))) = some ty) : ty = PyType.str := by
  induction ks with
  | nil => simp [dictGet] at h
  | cons a ks ih =>
    by_cases ha : a = k
    · simp [dictGet, ha] at h
      exact h.symm
    · simp only [List.map_cons, dictGet, if_neg ha] at h
      exact ih h

lemma all_slash_segs (s : Str) (h : ∀ c ∈ s, c = '/') : segs s = [] := by
  induction s with
  | nil => rfl
  | cons c cs ih =>
    have hc : c = '/' := h c (List.mem_cons_self _ _)
    subst hc
    rw [segs_slash_cons]
    exact ih (fun d hd => h d (List.mem_cons_of_mem _ hd))

/-- C6: construction fails with a `URIValidationError` for every template string
that does not start with `docs://` or whose remainder after the scheme is empty,
and in that case only an error is produced (no template value exists, so the
failure is atomic); every other string constructs the template with state
CREATED and the given fields. -/
theorem construct_validates (uri : Str) (ptypes : List (Str × PyType)) :
    ((docsScheme.isPrefixOf uri = false ∨
        (docsScheme.isPrefixOf uri = true ∧ uri.drop 7 = [])) →
      ∃ e, mkResourceTemplate uri ptypes = .error e ∧ e.isURIValidationError = true)
    ∧ (docsScheme.isPrefixOf uri = true → uri.drop 7 ≠ [] →
      mkResourceTemplate uri ptypes = .ok ⟨uri, .created, ptypes⟩) := by
  constructor
  · rintro (hp | ⟨hp, hd⟩)
    · refine ⟨.uriProtocolStart, ?_, rfl⟩
      simp [mkResourceTemplate, validate_uri_template, hp]
    · have hlen : uri.length ≤ 7 := List.drop_eq_nil_iff.mp hd
      refine ⟨.uriEmptyPath, ?_, rfl⟩
      simp [mkResourceTemplate, validate_uri_template, hp, hlen]
  · intro hp hd
    have hlen : ¬ (uri.length ≤ 7) := fun hle => hd (List.drop_eq_nil_iff.mpr hle)
    simp [mkResourceTemplate, validate_uri_template, hp, hlen]

/-- C6 witness: the bare scheme `docs://` has an empty remainder and is
rejected with a `URIValidationError`. -/
theorem construct_validates_w :
    ∃ e, mkResourceTemplate docsScheme [] = .error e ∧ e.isURIValidationError = true :=
  (construct_validates docsScheme []).1 (Or.inr ⟨rfl, rfl⟩)

/-- C4 (amended): `validate_parameters` succeeds exactly when every supplied
pair whose name has a declared expected type passes Python's `isinstance` check
against it (subclass-aware, so a boolean value passes a declared integer type);
any failure is a `ParameterExtractionError` naming an offending parameter and
its declared expected type; pairs whose name has no declared type are never
checked. -/
theorem validate_parameters_isinstance_check (t : ResourceTemplate)
    (ps : List (Str × PyValue)) :
    (validate_parameters t ps = .ok () ↔
      ∀ pr ∈ ps, ∀ ty, dictGet pr.1 t.parameter_types = some ty →
        isinstance pr.2 ty = true)
    ∧ ∀ e, validate_parameters t ps = .error e →
        e.isParameterExtractionError = true ∧
        ∃ n ty v, (n, v) ∈ ps ∧ dictGet n t.parameter_types = some ty ∧
          isinstance v ty = false ∧ e = .extractionType n ty := by
  refine ⟨validate_ok_iff t ps, ?_⟩
  intro e he
  obtain ⟨n, ty, v, hmem, hg, hi, hee⟩ := validate_error_shape t ps e he
  subst hee
  exact ⟨rfl, n, ty, v, hmem, hg, hi, rfl⟩

/-- C4 counterexample: with declared integer type for `p`, the boolean value
`True` passes validation (Python `isinstance(True, int)` holds because `bool`
subclasses `int`), although the value's exact runtime type is `bool`, not
`int`; the claim's exact-runtime-type check would have to fail here. -/
theorem validate_exact_type_cx :
    validate_parameters ⟨docsScheme ++ ['x'], .created, [(['p'], PyType.int)]⟩
        [(['p'], PyValue.vbool true)] = .ok ()
      ∧ specRuntimeType (PyValue.vbool true) ≠ PyType.int :=
  ⟨by decide, by decide⟩

/-- C4 witness: the characterization applied at a concrete failing input, a
string value against a declared integer type. -/
theorem validate_parameters_isinstance_check_w :
    ResourceError.isParameterExtractionError (.extractionType ['p'] .int) = true ∧
    ∃ n ty v, (n, v) ∈ [(['p'], PyValue.vstr ['x'])] ∧
      dictGet n [(['p'], PyType.int)] = some ty ∧
      isinstance v ty = false ∧
      (ResourceError.extractionType ['p'] PyType.int : ResourceError) =
        .extractionType n ty :=
  (validate_parameters_isinstance_check
    ⟨docsScheme ++ ['x'], .created, [(['p'], PyType.int)]⟩
    [(['p'], PyValue.vstr ['x'])]).2 (.extractionType ['p'] .int) (by decide)

/-- C2 (amended): for every nonempty string s all of whose slash-separated
segments that begin with a brace-wrapped token carry alphanumeric names,
constructing a template from `docs://` followed by s succeeds with state
CREATED, and parsing that same string against it returns protocol `docs` and
path s. -/
theorem template_self_parse (s : Str) (hne : s ≠ [])
    (hph : ∀ seg ∈ segs s, optAll isAlnum (matchParam seg) = true) :
    mkResourceTemplate (docsScheme ++ s) [] = .ok ⟨docsScheme ++ s, .created, []⟩
    ∧ ∃ c, parse_uri ⟨docsScheme ++ s, .created, []⟩ (docsScheme ++ s) = .ok c
        ∧ c.protocol = protoDocs ∧ c.path = s := by
  constructor
  · have hp := scheme_isPrefixOf_append s
    have hpos : 0 < s.length := List.length_pos.mpr hne
    have hlen : ¬ (List.length docsScheme + List.length s ≤ 7) := by
      have h7 : List.length docsScheme = 7 := rfl
      omega
    simp [mkResourceTemplate, validate_uri_template, hp, hlen]
  · have h1 := scheme_isPrefixOf_append s
    have h2 : (segs s).length = (segs s).length := rfl
    have h3 : ∀ pr ∈ (segs s).zip (segs s), optAll isAlnum (matchParam pr.1) = true := by
      intro pr hpr
      obtain ⟨a, b⟩ := pr
      exact hph a (List.of_mem_zip hpr).1
    have hok := parse_uri_ok_of ⟨docsScheme ++ s, .created, []⟩ (docsScheme ++ s) h1 h2 h3
    exact ⟨_, hok, rfl, rfl⟩

/-- C2 counterexample: for s the three characters of a brace-wrapped bang, the
template constructs but parsing the same string raises a `URIValidationError`
for the non-alphanumeric parameter name, instead of returning path s as the
claim (and the repository's own property test) demands. -/
theorem template_self_parse_cx :
    mkResourceTemplate (docsScheme ++ ['{', '!', '}']) [] =
      .ok ⟨docsScheme ++ ['{', '!', '}'], .created, []⟩
    ∧ parse_uri ⟨docsScheme ++ ['{', '!', '}'], .created, []⟩
        (docsScheme ++ ['{', '!', '}']) = .error (.uriInvalidParamName ['!']) :=
  ⟨by decide, by decide⟩

/-- C2 witness: the amended claim applied at the one-character string `a`. -/
theorem template_self_parse_w :
    (['a'] : Str) ≠ [] ∧
    (mkResourceTemplate (docsScheme ++ ['a']) [] =
        .ok ⟨docsScheme ++ ['a'], .created, []⟩
      ∧ ∃ c, parse_uri ⟨docsScheme ++ ['a'], .created, []⟩ (docsScheme ++ ['a']) = .ok c
          ∧ c.protocol = protoDocs ∧ c.path = ['a']) :=
  ⟨by decide, template_self_parse ['a'] (by decide) (by decide)⟩

/-- C10: a template whose path after the scheme consists only of slash
characters parses the bare scheme `docs://` successfully, returning protocol
`docs`, empty path and an empty parameters mapping; `docs:///` is such a
template and construction accepts it. -/
theorem parse_allows_empty_candidate :
    mkResourceTemplate (docsScheme ++ ['/']) [] =
      .ok ⟨docsScheme ++ ['/'], .created, []⟩
    ∧ ∀ t : ResourceTemplate, (∀ c ∈ t.uri_template.drop 7, c = '/') →
        parse_uri t docsScheme = .ok ⟨protoDocs, [], []⟩ := by
  constructor
  · decide
  · intro t ht
    have hsegs : segs (t.uri_template.drop 7) = [] := all_slash_segs _ ht
    have h1 : docsScheme.isPrefixOf docsScheme = true := by decide
    have hu : segs (docsScheme.drop 7) = [] := rfl
    have hd : docsScheme.drop 7 = ([] : Str) := rfl
    have hnil : segs ([] : Str) = [] := rfl
    simp [parse_uri, h1, hsegs, hu, hd, hnil, collectParams]

/-- C10 witness: the claim applied to the template `docs:///` itself. -/
theorem parse_allows_empty_candidate_w :
    parse_uri ⟨docsScheme ++ ['/'], .created, []⟩ docsScheme = .ok ⟨protoDocs, [], []⟩ :=
  parse_allows_empty_candidate.2 ⟨docsScheme ++ ['/'], .created, []⟩ (by decide)

lemma nodup_countP_le_one (l : List Str) (h : l.Nodup) (name : Str) :
    l.countP (fun k => decide (k = name)) ≤ 1 := by
  induction l with
  | nil => simp
  | cons a l ih =>
    obtain ⟨ha, hl⟩ := List.nodup_cons.mp h
    rw [List.countP_cons]
    by_cases han : a = name
    · subst han
      have hz : l.countP (fun k => decide (k = a)) = 0 := by
        rw [List.countP_eq_zero]
        intro b hb
        simp only [decide_eq_true_eq]
        intro hba
        exact ha (hba ▸ hb)
      simp [hz]
    · have hf : (fun k => decide (k = name)) a = false := by simp [han]
      simp [hf, ih hl]

/-- C1 (amended): whenever the candidate starts with the scheme, segment counts
agree, and every template segment that begins with a brace-wrapped token
carries an alphanumeric name, `parse_uri` succeeds whatever the candidate
segments contain in literal positions, and a name appears in the returned
parameters exactly when some template segment prefix-matches a placeholder of
that name (one or more non-closing-brace characters between braces at the
START of the segment, trailing characters ignored); segments not matching that
prefix pattern are literal and are never compared with the corresponding
candidate segment. -/
theorem parse_uri_placeholder_iff (t : ResourceTemplate) (uri : Str)
    (h1 : docsScheme.isPrefixOf uri = true)
    (h2 : (segs (t.uri_template.drop 7)).length = (segs (uri.drop 7)).length)
    (h3 : ∀ seg ∈ segs (t.uri_template.drop 7),
      optAll isAlnum (matchParam seg) = true) :
    ∃ c, parse_uri t uri = .ok c ∧
      ∀ name, (∃ v, dictGet name c.parameters = some v) ↔
        ∃ pr ∈ (segs (t.uri_template.drop 7)).zip (segs (uri.drop 7)),
          matchParam pr.1 = some name := by
  have h3' : ∀ pr ∈ (segs (t.uri_template.drop 7)).zip (segs (uri.drop 7)),
      optAll isAlnum (matchParam pr.1) = true := by
    intro pr hpr
    obtain ⟨a, b⟩ := pr
    exact h3 a (List.of_mem_zip hpr).1
  refine ⟨_, parse_uri_ok_of t uri h1 h2 h3', ?_⟩
  intro name
  show (∃ v, dictGet name
      (collectOk ((segs (t.uri_template.drop 7)).zip (segs (uri.drop 7))) []) = some v) ↔ _
  rw [dictGet_collectOk]
  constructor
  · rintro ⟨v, hv⟩
    by_contra hno
    push_neg at hno
    have hnil := (placeholderVals_nil_iff name _).mpr hno
    rw [hnil] at hv
    simp [optOr, dictGet] at hv
  · rintro ⟨pr, hmem, hmp⟩
    have hpvne : placeholderVals name
        ((segs (t.uri_template.drop 7)).zip (segs (uri.drop 7))) ≠ [] := fun hnil =>
      ((placeholderVals_nil_iff name _).mp hnil) pr hmem hmp
    cases hx : (placeholderVals name
        ((segs (t.uri_template.drop 7)).zip (segs (uri.drop 7)))).getLast? with
    | none => exact absurd ((getLast?_none_iff _).mp hx) hpvne
    | some w => exact ⟨w, rfl⟩

/-- C1 counterexample: the template segment consisting of a braced name
followed by a trailing character is NOT entirely a brace-wrapped name, yet
`parse_uri` treats it as a placeholder and records a parameter for it. -/
theorem parse_uri_prefix_placeholder_cx :
    specWholePlaceholder ['{', 'x', '}', 'y'] = none
    ∧ parse_uri ⟨docsScheme ++ ['{', 'x', '}', 'y'], .created, []⟩
        (docsScheme ++ ['a', 'b', 'c']) =
      .ok ⟨protoDocs, ['a', 'b', 'c'], [(['x'], ['a', 'b', 'c'])]⟩ :=
  ⟨by decide, by decide⟩

/-- C1 witness: the amended claim applied to a template with one literal and
one prefix-matched placeholder segment, against an arbitrary candidate. -/
theorem parse_uri_placeholder_iff_w :
    docsScheme.isPrefixOf (docsScheme ++ ['w', '/', 'q']) = true ∧
    (∃ c, parse_uri ⟨docsScheme ++ ['l', 'i', 't', '/', '{', 'x', '}', 'y'], .created, []⟩
        (docsScheme ++ ['w', '/', 'q']) = .ok c ∧
      ∀ name, (∃ v, dictGet name c.parameters = some v) ↔
        ∃ pr ∈ (segs (['l', 'i', 't', '/', '{', 'x', '}', 'y'] : Str)).zip
            (segs (['w', '/', 'q'] : Str)),
          matchParam pr.1 = some name) :=
  ⟨by decide,
    parse_uri_placeholder_iff ⟨docsScheme ++ ['l', 'i', 't', '/', '{', 'x', '}', 'y'], .created, []⟩
      (docsScheme ++ ['w', '/', 'q']) (by decide) (by decide) (by decide)⟩

/-- C9: under the success conditions of parsing, the returned parameters hold
at most one entry per name, and the value looked up for a name is the candidate
segment paired with the LAST template position whose segment prefix-matches a
placeholder of that name; duplicate placeholder names therefore cause no
failure and yield a single entry carrying the rightmost occurrence's value. -/
theorem parse_uri_duplicate_last_wins (t : ResourceTemplate) (uri : Str)
    (h1 : docsScheme.isPrefixOf uri = true)
    (h2 : (segs (t.uri_template.drop 7)).length = (segs (uri.drop 7)).length)
    (h3 : ∀ seg ∈ segs (t.uri_template.drop 7),
      optAll isAlnum (matchParam seg) = true) :
    ∃ c, parse_uri t uri = .ok c ∧
      (∀ name, (c.parameters.map Prod.fst).countP (fun k => decide (k = name)) ≤ 1) ∧
      ∀ name, dictGet name c.parameters =
        (placeholderVals name
          ((segs (t.uri_template.drop 7)).zip (segs (uri.drop 7)))).getLast? := by
  have h3' : ∀ pr ∈ (segs (t.uri_template.drop 7)).zip (segs (uri.drop 7)),
      optAll isAlnum (matchParam pr.1) = true := by
    intro pr hpr
    obtain ⟨a, b⟩ := pr
    exact h3 a (List.of_mem_zip hpr).1
  refine ⟨_, parse_uri_ok_of t uri h1 h2 h3', ?_, ?_⟩
  · intro name
    have hnd := collectOk_keys_nodup
      ((segs (t.uri_template.drop 7)).zip (segs (uri.drop 7))) [] (by simp)
    exact nodup_countP_le_one _ hnd name
  · intro name
    show dictGet name
        (collectOk ((segs (t.uri_template.drop 7)).zip (segs (uri.drop 7))) []) = _
    rw [dictGet_collectOk]
    cases hx : (placeholderVals name
        ((segs (t.uri_template.drop 7)).zip (segs (uri.drop 7)))).getLast? with
    | none => rfl
    | some w => rfl

/-- C9 witness: the duplicate-name template with two occurrences of the same
placeholder, where the recorded value is the second candidate segment. -/
theorem parse_uri_duplicate_last_wins_w :
    ∃ c, parse_uri
        ⟨docsScheme ++ ['{', 'x', '}', '/', '{', 'x', '}'], .created, []⟩
        (docsScheme ++ ['a', '/', 'b']) = .ok c ∧
      (∀ name, (c.parameters.map Prod.fst).countP (fun k => decide (k = name)) ≤ 1) ∧
      ∀ name, dictGet name c.parameters =
        (placeholderVals name
          ((segs (['{', 'x', '}', '/', '{', 'x', '}'] : Str)).zip
            (segs (['a', '/', 'b'] : Str)))).getLast? :=
  parse_uri_duplicate_last_wins
    ⟨docsScheme ++ ['{', 'x', '}', '/', '{', 'x', '}'], .created, []⟩
    (docsScheme ++ ['a', '/', 'b']) (by decide) (by decide) (by decide)

/-- C7: with a scheme-prefixed candidate, `parse_uri` fails with a
`URIValidationError` carrying exactly the template and candidate segment
counts precisely when those counts differ; when they agree no segment-count
error can arise; and segmentation itself ignores leading, trailing and
repeated slashes and never produces an empty segment entry. -/
theorem parse_segment_counting (t : ResourceTemplate) (uri : Str)
    (h1 : docsScheme.isPrefixOf uri = true) :
    ((segs (t.uri_template.drop 7)).length ≠ (segs (uri.drop 7)).length →
      parse_uri t uri = .error (.uriSegmentMismatch
        (segs (t.uri_template.drop 7)).length (segs (uri.drop 7)).length)
      ∧ (ResourceError.uriSegmentMismatch (segs (t.uri_template.drop 7)).length
          (segs (uri.drop 7)).length).isURIValidationError = true)
    ∧ ((segs (t.uri_template.drop 7)).length = (segs (uri.drop 7)).length →
      ∀ a b, parse_uri t uri ≠ .error (.uriSegmentMismatch a b))
    ∧ (∀ s : Str, segs ('/' :: s) = segs s ∧ segs (s ++ ['/']) = segs s ∧ [] ∉ segs s)
    ∧ (∀ a b : Str, segs (a ++ '/' :: '/' :: b) = segs (a ++ '/' :: b)) := by
  refine ⟨?_, ?_, ?_, ?_⟩
  · intro hneq
    refine ⟨?_, rfl⟩
    simp [parse_uri, h1, hneq]
  · intro heq a b hcontra
    simp only [parse_uri] at hcontra
    rw [if_neg (fun hc => hc h1), if_neg (fun hc => hc heq)] at hcontra
    cases hcp : collectParams
        ((segs (t.uri_template.drop 7)).zip (segs (uri.drop 7))) [] with
    | ok p =>
      rw [hcp] at hcontra
      cases hcontra
    | error e =>
      rw [hcp] at hcontra
      obtain ⟨n, hn⟩ := collect_error_shape _ _ _ hcp
      subst hn
      simp at hcontra
  · intro s
    exact ⟨segs_slash_cons s, segs_trailing_slash s, nil_not_mem_segs s⟩
  · intro a b
    exact segs_double_slash a b

/-- C7 witness: the claim applied to a two-segment template against a
one-segment candidate, reporting the counts two and one. -/
theorem parse_segment_counting_w :
    parse_uri ⟨docsScheme ++ ['a', '/', '{', 'x', '}'], .created, []⟩
        (docsScheme ++ ['a']) = .error (.uriSegmentMismatch 2 1)
    ∧ (ResourceError.uriSegmentMismatch 2 1).isURIValidationError = true :=
  (parse_segment_counting ⟨docsScheme ++ ['a', '/', '{', 'x', '}'], .created, []⟩
    (docsScheme ++ ['a']) (by decide)).1 (by decide)

/-- C8: a successfully constructed template has state CREATED and carries
exactly the given fields; none of the three operations returns a modified
receiver (the methods never assign to `self`), so the state stays CREATED after
any call; and `parse_uri` is a pure function of its arguments, so two calls
with identical arguments give equal results. -/
theorem template_ops_pure (uri : Str) (ptypes : List (Str × PyType))
    (t : ResourceTemplate) (h : mkResourceTemplate uri ptypes = .ok t) :
    t.state = .created ∧ t.uri_template = uri ∧ t.parameter_types = ptypes
    ∧ (∀ u c t', parse_uri_method t u = .ok (c, t') → t' = t ∧ t'.state = .created)
    ∧ (∀ u ps t', extract_parameters_method t u = .ok (ps, t') → t' = t)
    ∧ (∀ ps r t', validate_parameters_method t ps = .ok (r, t') → t' = t)
    ∧ (∀ u, parse_uri t u = parse_uri t u) := by
  have hts : t = ⟨uri, .created, ptypes⟩ := by
    unfold mkResourceTemplate validate_uri_template at h
    by_cases hp : docsScheme.isPrefixOf uri
    · by_cases hl : uri.length ≤ 7
      · simp [hp, hl] at h
      · simp [hp, hl] at h
        exact h.symm
    · simp [hp] at h
  subst hts
  refine ⟨rfl, rfl, rfl, ?_, ?_, ?_, fun _ => rfl⟩
  · intro u c t' hm
    unfold parse_uri_method at hm
    cases hpu : parse_uri ⟨uri, .created, ptypes⟩ u with
    | ok c0 =>
      rw [hpu] at hm
      simp only [Except.ok.injEq, Prod.mk.injEq] at hm
      exact ⟨hm.2.symm, by rw [← hm.2]⟩
    | error e =>
      rw [hpu] at hm
      cases hm
  · intro u ps t' hm
    unfold extract_parameters_method at hm
    cases hpu : extract_parameters ⟨uri, .created, ptypes⟩ u with
    | ok p0 =>
      rw [hpu] at hm
      simp only [Except.ok.injEq, Prod.mk.injEq] at hm
      exact hm.2.symm
    | error e =>
      rw [hpu] at hm
      cases hm
  · intro ps r t' hm
    unfold validate_parameters_method at hm
    cases hpu : validate_parameters ⟨uri, .created, ptypes⟩ ps with
    | ok r0 =>
      rw [hpu] at hm
      simp only [Except.ok.injEq, Prod.mk.injEq] at hm
      exact hm.2.symm
    | error e =>
      rw [hpu] at hm
      cases hm

/-- C8 witness: the state of a concretely constructed template is CREATED. -/
theorem template_ops_pure_w :
    (⟨docsScheme ++ ['a'], .created, []⟩ : ResourceTemplate).state = .created :=
  (template_ops_pure (docsScheme ++ ['a']) [] ⟨docsScheme ++ ['a'], .created, []⟩
    (by decide)).1

/-- C5: given a successful parse, `extract_parameters` succeeds exactly when
the declared name set and the found name set coincide, returning the parsed
raw string mapping unchanged; otherwise it fails with a
`ParameterExtractionError` whose message carries the missing-names clause when
some declared name is absent and the extra-names clause when some found name
is undeclared, at least one of which is then nonempty, with both clauses
joined into the one message when both are nonempty. -/
theorem extract_parameters_name_sets (t : ResourceTemplate) (uri : Str)
    (comps : URIComponents) (hp : parse_uri t uri = .ok comps) :
    ((∀ x, x ∈ declaredKeys t ↔ x ∈ foundKeys comps) →
      extract_parameters t uri = .ok comps.parameters)
    ∧ (¬ (∀ x, x ∈ declaredKeys t ↔ x ∈ foundKeys comps) →
      extract_parameters t uri = .error (.extractionMismatch
          (mkClauses (missingKeys t comps) (extraKeys t comps)))
      ∧ (ResourceError.extractionMismatch
          (mkClauses (missingKeys t comps) (extraKeys t comps))).isParameterExtractionError
            = true
      ∧ (missingKeys t comps ≠ [] ∨ extraKeys t comps ≠ [])
      ∧ (missingKeys t comps ≠ [] → extraKeys t comps ≠ [] →
          mkClauses (missingKeys t comps) (extraKeys t comps) =
            [.missing (missingKeys t comps), .extra (extraKeys t comps)])
      ∧ (missingKeys t comps = [] →
          mkClauses (missingKeys t comps) (extraKeys t comps) =
            [.extra (extraKeys t comps)])
      ∧ (extraKeys t comps = [] →
          mkClauses (missingKeys t comps) (extraKeys t comps) =
            [.missing (missingKeys t comps)])) := by
  constructor
  · intro hss
    have hb : sameSet (declaredKeys t) (foundKeys comps) = true := (sameSet_iff _ _).mpr hss
    simp [extract_parameters, hp, hb]
  · intro hss
    have hb : sameSet (declaredKeys t) (foundKeys comps) = false := by
      cases hsb : sameSet (declaredKeys t) (foundKeys comps) with
      | true => exact absurd ((sameSet_iff _ _).mp hsb) hss
      | false => rfl
    have hdisj : missingKeys t comps ≠ [] ∨ extraKeys t comps ≠ [] := by
      by_contra hno
      push_neg at hno
      obtain ⟨hm, he⟩ := hno
      apply hss
      intro x
      constructor
      · intro hx
        by_contra hxf
        have hxm : x ∈ missingKeys t comps := by
          simp [missingKeys, List.mem_filter, hx, hxf]
        rw [hm] at hxm
        simp at hxm
      · intro hx
        by_contra hxd
        have hxe : x ∈ extraKeys t comps := by
          simp [extraKeys, List.mem_filter, hx, hxd]
        rw [he] at hxe
        simp at hxe
    refine ⟨?_, rfl, hdisj, ?_, ?_, ?_⟩
    · simp [extract_parameters, hp, hb]
    · intro h1 h2
      simp [mkClauses, h1, h2]
    · intro h1
      rcases hdisj with hm | he
      · exact absurd h1 hm
      · simp [mkClauses, h1, he]
    · intro h1
      rcases hdisj with hm | he
      · simp [mkClauses, h1, hm]
      · exact absurd h1 he

/-- C5 witness: declared name `b` and found name `a` differ in both directions,
so extraction fails with a message carrying both the missing and the extra
clause. -/
theorem extract_parameters_name_sets_w :
    extract_parameters ⟨docsScheme ++ ['{', 'a', '}'], .created, [(['b'], PyType.str)]⟩
        (docsScheme ++ ['{', 'a', '}']) =
      .error (.extractionMismatch [.missing [['b']], .extra [['a']]]) :=
  ((extract_parameters_name_sets
      ⟨docsScheme ++ ['{', 'a', '}'], .created, [(['b'], PyType.str)]⟩
      (docsScheme ++ ['{', 'a', '}'])
      ⟨protoDocs, ['{', 'a', '}'], [(['a'], ['{', 'a', '}'])]⟩ (by decide)).2
    (fun hall => absurd ((hall ['b']).mp (by decide)) (by decide))).1

lemma map_fst_pair_str (ks : List Str) :
    (ks.map (fun k => (k, PyType.str))).map Prod.fst = ks := by
  induction ks with
  | nil => rfl
  | cons a l ih => simp only [List.map_cons, ih]

/-- C3 (amended): for a nonempty slash-free base path that does not itself
begin with a brace-wrapped placeholder token, distinct alphanumeric parameter
names, and nonempty slash-free values in equal number, building the template
from the braced names with all-string declared types succeeds, extracting from
the candidate built from the values returns exactly the name-to-value mapping
in order, and validating that mapping against the declared string types
succeeds. -/
theorem round_trip_extraction (base : Str) (ks vs : List Str)
    (hb1 : base ≠ []) (hb2 : ∀ c ∈ base, c ≠ '/') (hb3 : matchParam base = none)
    (hlen : ks.length = vs.length) (hnd : ks.Nodup)
    (hks : ∀ k ∈ ks, isAlnum k = true)
    (hvs : ∀ v ∈ vs, v ≠ [] ∧ ∀ c ∈ v, c ≠ '/') :
    mkResourceTemplate (docsScheme ++ (base ++ joinSlash (ks.map wrapB)))
        (ks.map (fun k => (k, PyType.str))) =
      .ok ⟨docsScheme ++ (base ++ joinSlash (ks.map wrapB)), .created,
        ks.map (fun k => (k, PyType.str))⟩
    ∧ extract_parameters
        ⟨docsScheme ++ (base ++ joinSlash (ks.map wrapB)), .created,
          ks.map (fun k => (k, PyType.str))⟩
        (docsScheme ++ (base ++ joinSlash vs)) = .ok (ks.zip vs)
    ∧ validate_parameters
        ⟨docsScheme ++ (base ++ joinSlash (ks.map wrapB)), .created,
          ks.map (fun k => (k, PyType.str))⟩
        ((ks.zip vs).map (fun pr => (pr.1, PyValue.vstr pr.2))) = .ok () := by
  have hwraps : ∀ p ∈ ks.map wrapB, p ≠ [] ∧ ∀ c ∈ p, c ≠ '/' := by
    intro p hp
    simp only [List.mem_map] at hp
    obtain ⟨k, hk, rfl⟩ := hp
    have hsp := isAlnum_spec (hks k hk)
    exact ⟨wrapB_ne_nil k, wrapB_no_slash k (fun c hc => (hsp.2 c hc).1)⟩
  have hsegsT : segs (base ++ joinSlash (ks.map wrapB)) = base :: ks.map wrapB := by
    rw [segs_joinSlash (ks.map wrapB) hwraps base, segs_single base hb1 hb2]
    rfl
  have hsegsU : segs (base ++ joinSlash vs) = base :: vs := by
    rw [segs_joinSlash vs hvs base, segs_single base hb1 hb2]
    rfl
  have hcons : mkResourceTemplate (docsScheme ++ (base ++ joinSlash (ks.map wrapB)))
      (ks.map (fun k => (k, PyType.str))) =
      .ok ⟨docsScheme ++ (base ++ joinSlash (ks.map wrapB)), .created,
        ks.map (fun k => (k, PyType.str))⟩ := by
    have hp1 := scheme_isPrefixOf_append (base ++ joinSlash (ks.map wrapB))
    have hlen' : ¬ ((docsScheme ++ (base ++ joinSlash (ks.map wrapB))).length ≤ 7) := by
      rw [length_scheme_append, List.length_append]
      have := List.length_pos.mpr hb1
      omega
    unfold mkResourceTemplate validate_uri_template
    rw [if_neg (fun hc => hc hp1), if_neg hlen']
  have hcoll : collectParams ((base, base) :: (ks.map wrapB).zip vs) [] =
      .ok (ks.zip vs) := by
    rw [show collectParams ((base, base) :: (ks.map wrapB).zip vs) [] =
        collectParams ((ks.map wrapB).zip vs) [] from by simp [collectParams, hb3]]
    have hcf := collectParams_fresh ks vs [] hlen hks hnd (by simp)
    simpa using hcf
  have hparse : parse_uri
      ⟨docsScheme ++ (base ++ joinSlash (ks.map wrapB)), .created,
        ks.map (fun k => (k, PyType.str))⟩
      (docsScheme ++ (base ++ joinSlash vs)) =
      .ok ⟨protoDocs, base ++ joinSlash vs, ks.zip vs⟩ := by
    have h1p := scheme_isPrefixOf_append (base ++ joinSlash vs)
    have hd1 : (docsScheme ++ (base ++ joinSlash (ks.map wrapB))).drop 7 =
        base ++ joinSlash (ks.map wrapB) := drop7_scheme_append _
    have hd2 : (docsScheme ++ (base ++ joinSlash vs)).drop 7 =
        base ++ joinSlash vs := drop7_scheme_append _
    have hlens : (base :: ks.map wrapB).length = (base :: vs).length := by
      simp [hlen]
    simp [parse_uri, h1p, hd1, hd2, hsegsT, hsegsU, hlens, hcoll]
  have hfound : foundKeys ⟨protoDocs, base ++ joinSlash vs, ks.zip vs⟩ = ks := by
    simp only [foundKeys]
    exact List.map_fst_zip ks vs (le_of_eq hlen)
  have hdecl : declaredKeys
      ⟨docsScheme ++ (base ++ joinSlash (ks.map wrapB)), .created,
        ks.map (fun k => (k, PyType.str))⟩ = ks := by
    simp only [declaredKeys]
    exact map_fst_pair_str ks
  have hss : sameSet
      (declaredKeys ⟨docsScheme ++ (base ++ joinSlash (ks.map wrapB)), .created,
        ks.map (fun k => (k, PyType.str))⟩)
      (foundKeys ⟨protoDocs, base ++ joinSlash vs, ks.zip vs⟩) = true := by
    rw [hdecl, hfound]
    exact sameSet_self ks
  have hext : extract_parameters
      ⟨docsScheme ++ (base ++ joinSlash (ks.map wrapB)), .created,
        ks.map (fun k => (k, PyType.str))⟩
      (docsScheme ++ (base ++ joinSlash vs)) = .ok (ks.zip vs) := by
    simp [extract_parameters, hparse, hss]
  have hval : validate_parameters
      ⟨docsScheme ++ (base ++ joinSlash (ks.map wrapB)), .created,
        ks.map (fun k => (k, PyType.str))⟩
      ((ks.zip vs).map (fun pr => (pr.1, PyValue.vstr pr.2))) = .ok () := by
    rw [validate_ok_iff]
    intro pr hpr ty hty
    simp only [List.mem_map] at hpr
    obtain ⟨⟨k, v⟩, hmem, rfl⟩ := hpr
    have hstr : ty = PyType.str := dictGet_map_str ks k ty hty
    subst hstr
    rfl
  exact ⟨hcons, hext, hval⟩

/-- C3 counterexample: base path the braced name of x is slash-free, yet with
the empty parameter mapping (template `docs://` followed by that base,
candidate the same, no declared types) extraction fails with an
extra-parameter error instead of returning the empty mapping, because the base
segment itself is captured as a placeholder. -/
theorem round_trip_cx :
    mkResourceTemplate (docsScheme ++ ['{', 'x', '}']) [] =
      .ok ⟨docsScheme ++ ['{', 'x', '}'], .created, []⟩
    ∧ extract_parameters ⟨docsScheme ++ ['{', 'x', '}'], .created, []⟩
        (docsScheme ++ ['{', 'x', '}']) =
      .error (.extractionMismatch [.extra [['x']]]) :=
  ⟨by decide, by decide⟩

/-- C3 witness: the round trip applied to base `b`, one parameter named `k`
with value `v`. -/
theorem round_trip_extraction_w :
    mkResourceTemplate (docsScheme ++ (['b'] ++ joinSlash ([['k']].map wrapB)))
        ([['k']].map (fun k => (k, PyType.str))) =
      .ok ⟨docsScheme ++ (['b'] ++ joinSlash ([['k']].map wrapB)), .created,
        [['k']].map (fun k => (k, PyType.str))⟩
    ∧ extract_parameters
        ⟨docsScheme ++ (['b'] ++ joinSlash ([['k']].map wrapB)), .created,
          [['k']].map (fun k => (k, PyType.str))⟩
        (docsScheme ++ (['b'] ++ joinSlash [['v']])) = .ok ([['k']].zip [['v']])
    ∧ validate_parameters
        ⟨docsScheme ++ (['b'] ++ joinSlash ([['k']].map wrapB)), .created,
          [['k']].map (fun k => (k, PyType.str))⟩
        (([['k']].zip [['v']]).map (fun pr => (pr.1, PyValue.vstr pr.2))) = .ok () :=
  round_trip_extraction ['b'] [['k']] [['v']] (by decide) (by decide) (by decide)
    (by decide) (by decide) (by decide) (by decide)
